import Mathlib

/-!
Verification of the pi-cursor-provider streaming translation layer.

This file gives a shallow embedding, in Lean 4, of the parts of
`src/index.ts` that the verified properties talk about:

* the NDJSON line parser (`parseLine`),
* the tool-name mapper (`toPiToolName`) and the inline tool marker,
* the stream translator of `streamCursorCli` (line handler, finalization
  on process close, spawn-error handler),
* the `agent models` discovery client (`parseAgentModelsOutput`,
  `inferReasoning`, `runAgentModels`).

JavaScript strings are modelled as `List Char` (named `Str` below);
`JSON.parse` and `JSON.stringify` are modelled by an executable JSON
parser and serializer over an explicit `Json` value type (numbers keep
their lexeme, which is all the program ever needs: no numeric value from
the protocol is ever consumed).
-/

set_option maxRecDepth 8000

namespace PiCursor

/-- JavaScript strings are modelled as lists of characters. -/
abbrev Str := List Char

/-- Embed a Lean string literal into the character-list model. -/
def chars (s : String) : Str := s.data

/-- The whitespace class of JavaScript: used both by
`String.prototype.trim` and by the regex class `\s`
(tab through carriage return, space, NBSP, the Unicode space
separators, line/paragraph separators, and the BOM). -/
def isJsWs (c : Char) : Bool :=
  decide ((9 ≤ c.toNat ∧ c.toNat ≤ 13) ∨ c.toNat = 32 ∨ c.toNat = 160 ∨
    c.toNat = 0x1680 ∨ (0x2000 ≤ c.toNat ∧ c.toNat ≤ 0x200a) ∨
    c.toNat = 0x2028 ∨ c.toNat = 0x2029 ∨ c.toNat = 0x202f ∨
    c.toNat = 0x205f ∨ c.toNat = 0x3000 ∨ c.toNat = 0xfeff)

/-- JavaScript `String.prototype.trim`: drop `isJsWs` characters from
both ends. -/
def trimL (s : Str) : Str :=
  ((s.dropWhile isJsWs).reverse.dropWhile isJsWs).reverse

/-- JSON document values, the result type of the model of `JSON.parse`.
Numbers keep their source lexeme: the program never reads a numeric
value out of a parsed line, so no numeric interpretation is needed. -/
inductive Json where
  | null
  | bool (b : Bool)
  | num (lex : Str)
  | str (s : Str)
  | arr (elems : List Json)
  | obj (fields : List (Str × Json))

/-- Whitespace allowed by the JSON grammar between tokens. -/
def isJsonWs (c : Char) : Bool :=
  c == ' ' || c == '\t' || c == '\n' || c == '\r'

/-- Skip JSON inter-token whitespace. -/
def skipWsL (s : Str) : Str := s.dropWhile isJsonWs

/-- Value of one hexadecimal digit, if any. -/
def hexVal (c : Char) : Option Nat :=
  if 48 ≤ c.toNat ∧ c.toNat ≤ 57 then some (c.toNat - 48)
  else if 97 ≤ c.toNat ∧ c.toNat ≤ 102 then some (c.toNat - 87)
  else if 65 ≤ c.toNat ∧ c.toNat ≤ 70 then some (c.toNat - 55)
  else none

/-- The character denoted by a single-character JSON escape. -/
def escChar : Char → Option Char
  | '"' => some '"'
  | '\\' => some '\\'
  | '/' => some '/'
  | 'b' => some (Char.ofNat 8)
  | 'f' => some (Char.ofNat 12)
  | 'n' => some '\n'
  | 'r' => some '\r'
  | 't' => some '\t'
  | _ => none

/-- Parse the rest of a JSON string (the opening quote already
consumed); returns its contents and the remaining input.  Raw control
characters are rejected, escapes are decoded. -/
def pStringRest : Str → Option (Str × Str)
  | [] => none
  | '"' :: rest => some ([], rest)
  | '\\' :: 'u' :: h1 :: h2 :: h3 :: h4 :: rest =>
    match hexVal h1, hexVal h2, hexVal h3, hexVal h4 with
    | some a, some b, some c, some d =>
      (pStringRest rest).map
        (fun r => (Char.ofNat (((a * 16 + b) * 16 + c) * 16 + d) :: r.1, r.2))
    | _, _, _, _ => none
  | '\\' :: e :: rest =>
    match escChar e with
    | some c => (pStringRest rest).map (fun r => (c :: r.1, r.2))
    | none => none
  | c :: rest =>
    if c.toNat < 32 then none
    else (pStringRest rest).map (fun r => (c :: r.1, r.2))

/-- Longest digit run at the front of the input, and the rest. -/
def digitRun (s : Str) : Str × Str :=
  (s.takeWhile Char.isDigit, s.dropWhile Char.isDigit)

/-- Integer part of a JSON number: `0`, or a nonzero digit followed by
more digits. -/
def pIntPart : Str → Option (Str × Str)
  | [] => none
  | c :: rest =>
    if c = '0' then some (['0'], rest)
    else if c.isDigit then
      some (c :: (digitRun rest).1, (digitRun rest).2)
    else none

/-- Optional fraction part of a JSON number. -/
def pFrac (s : Str) : Option (Str × Str) :=
  match s with
  | '.' :: rest =>
    if (digitRun rest).1 = [] then none
    else some ('.' :: (digitRun rest).1, (digitRun rest).2)
  | _ => some ([], s)

/-- Optional exponent part of a JSON number. -/
def pExp (s : Str) : Option (Str × Str) :=
  match s with
  | c :: rest =>
    if c == 'e' || c == 'E' then
      match rest with
      | s2 :: r2 =>
        if s2 == '+' || s2 == '-' then
          if (digitRun r2).1 = [] then none
          else some (c :: s2 :: (digitRun r2).1, (digitRun r2).2)
        else
          if (digitRun rest).1 = [] then none
          else some (c :: (digitRun rest).1, (digitRun rest).2)
      | [] => none
    else some ([], s)
  | [] => some ([], s)

/-- A JSON number lexeme: optional minus, integer part, optional
fraction, optional exponent. -/
def pNumber (s : Str) : Option (Str × Str) :=
  let (neg, s1) := match s with
    | '-' :: r => ((['-'] : Str), r)
    | _ => (([] : Str), s)
  match pIntPart s1 with
  | none => none
  | some (ip, s2) =>
    match pFrac s2 with
    | none => none
    | some (fp, s3) =>
      match pExp s3 with
      | none => none
      | some (ep, s4) => some (neg ++ ip ++ fp ++ ep, s4)

mutual

/-- Fuel-indexed JSON value parser (model of the grammar accepted by
`JSON.parse`).  The fuel only bounds recursion depth; `jsonParse`
supplies enough for any input. -/
def pVal : Nat → Str → Option (Json × Str)
  | 0, _ => none
  | f + 1, s =>
    match skipWsL s with
    | 'n' :: 'u' :: 'l' :: 'l' :: r => some (.null, r)
    | 't' :: 'r' :: 'u' :: 'e' :: r => some (.bool true, r)
    | 'f' :: 'a' :: 'l' :: 's' :: 'e' :: r => some (.bool false, r)
    | '"' :: r => (pStringRest r).map (fun p => (.str p.1, p.2))
    | '[' :: r =>
      (match skipWsL r with
       | ']' :: r2 => some (.arr [], r2)
       | _ =>
         match pArrItems f r with
         | some (xs, r2) => some (.arr xs, r2)
         | none => none)
    | '\x7b' :: r =>
      (match skipWsL r with
       | '\x7d' :: r2 => some (.obj [], r2)
       | _ =>
         match pObjItems f r with
         | some (kvs, r2) => some (.obj kvs, r2)
         | none => none)
    | s2 => (pNumber s2).map (fun p => (.num p.1, p.2))

/-- Comma-separated JSON array items up to the closing bracket. -/
def pArrItems : Nat → Str → Option (List Json × Str)
  | 0, _ => none
  | f + 1, s =>
    match pVal f s with
    | none => none
    | some (v, r) =>
      match skipWsL r with
      | ',' :: r2 => (pArrItems f r2).map (fun p => (v :: p.1, p.2))
      | ']' :: r2 => some ([v], r2)
      | _ => none

/-- Comma-separated JSON object members up to the closing brace. -/
def pObjItems : Nat → Str → Option (List (Str × Json) × Str)
  | 0, _ => none
  | f + 1, s =>
    match skipWsL s with
    | '"' :: r =>
      (match pStringRest r with
       | none => none
       | some (k, r2) =>
         match skipWsL r2 with
         | ':' :: r3 =>
           (match pVal f r3 with
            | none => none
            | some (v, r4) =>
              match skipWsL r4 with
              | ',' :: r5 => (pObjItems f r5).map (fun p => ((k, v) :: p.1, p.2))
              | '\x7d' :: r5 => some ([(k, v)], r5)
              | _ => none)
         | _ => none)
    | _ => none

end

/-- Model of `JSON.parse`: parse one JSON value, require only
whitespace after it; `none` models the thrown `SyntaxError`. -/
def jsonParse (s : Str) : Option Json :=
  match pVal (s.length + 1) s with
  | some (v, rest) => if skipWsL rest = [] then some v else none
  | none => none

/-- `parseLine` from `src/index.ts`: trim the raw line, yield nothing
when it is empty, otherwise attempt JSON decoding, yielding nothing on
failure (the `try`/`catch` around `JSON.parse`). -/
def parseLine (line : String) : Option Json :=
  let trimmed := trimL line.data
  if trimmed = [] then none
  else jsonParse trimmed

/-- One hexadecimal digit character (lowercase), for string escapes. -/
def hexDigit (n : Nat) : Char :=
  if n < 10 then Char.ofNat (48 + n) else Char.ofNat (87 + n)

/-- `JSON.stringify` escaping of one character inside a string. -/
def escapeJsonChar (c : Char) : Str :=
  if c = '"' then chars "\\\""
  else if c = '\\' then chars "\\\\"
  else if c.toNat = 8 then chars "\\b"
  else if c.toNat = 12 then chars "\\f"
  else if c = '\n' then chars "\\n"
  else if c = '\r' then chars "\\r"
  else if c = '\t' then chars "\\t"
  else if c.toNat < 32 then
    chars "\\u00" ++ [hexDigit (c.toNat / 16), hexDigit (c.toNat % 16)]
  else [c]

/-- A JSON string literal as rendered by `JSON.stringify`. -/
def quoteJson (s : Str) : Str :=
  '"' :: (s.map escapeJsonChar).flatten ++ ['"']

mutual

/-- Model of `JSON.stringify` (no indentation): compact rendering with
fields in insertion order, as JavaScript produces. -/
def Json.render : Json → Str
  | .null => chars "null"
  | .bool true => chars "true"
  | .bool false => chars "false"
  | .num lex => lex
  | .str s => quoteJson s
  | .arr xs => '[' :: renderArr xs ++ [']']
  | .obj kvs => '\x7b' :: renderObj kvs ++ ['\x7d']

/-- Comma-separated rendering of array elements. -/
def renderArr : List Json → Str
  | [] => []
  | [x] => Json.render x
  | x :: y :: xs => Json.render x ++ ',' :: renderArr (y :: xs)

/-- Comma-separated rendering of object members. -/
def renderObj : List (Str × Json) → Str
  | [] => []
  | [(k, v)] => quoteJson k ++ ':' :: Json.render v
  | (k, v) :: p :: kvs => quoteJson k ++ ':' :: Json.render v ++ ',' :: renderObj (p :: kvs)

end

/-! ## Tool name mapping (`TOOL_NAME_MAP`, `toPiToolName`) -/

/-- The fixed mapping table `TOOL_NAME_MAP` from CLI camelCase tool
keys to Pi display names. -/
def TOOL_NAME_MAP : List (Str × Str) :=
  [(chars "shellToolCall", chars "Shell"),
   (chars "readToolCall", chars "Read"),
   (chars "editToolCall", chars "Edit"),
   (chars "writeToolCall", chars "Write"),
   (chars "deleteToolCall", chars "Delete"),
   (chars "grepToolCall", chars "Grep"),
   (chars "globToolCall", chars "Glob"),
   (chars "lsToolCall", chars "Ls"),
   (chars "todoToolCall", chars "Todo"),
   (chars "updateTodosToolCall", chars "UpdateTodos"),
   (chars "findToolCall", chars "Find"),
   (chars "webFetchToolCall", chars "WebFetch"),
   (chars "webSearchToolCall", chars "WebSearch")]

/-- Table lookup, modelling `TOOL_NAME_MAP[cliKey]`. -/
def lookupToolName (k : Str) : Option Str :=
  (TOOL_NAME_MAP.find? (fun p => p.1 == k)).map (fun p => p.2)

/-- `key.replace(/ToolCall$/, "")`: drop a trailing `ToolCall` if
present, else keep the key unchanged. -/
def stripToolCallSuffix (k : Str) : Str :=
  if chars "ToolCall" <:+ k then k.take (k.length - 8) else k

/-- `toPiToolName` from `src/index.ts`: the fixed table entry when the
key is mapped, otherwise the key with the trailing `ToolCall` suffix
stripped. -/
def toPiToolName (k : Str) : Str :=
  match lookupToolName k with
  | some v => v
  | none => stripToolCallSuffix k

/-! ## Static model table and dynamic discovery -/

/-- A Cursor model definition (`CursorModelDef`). -/
structure CursorModelDef where
  id : String
  name : String
  reasoning : Bool
  contextWindow : Nat
  maxTokens : Nat
deriving Repr, DecidableEq

/-- The static fallback model list `STATIC_MODELS`, copied entry by
entry from `src/index.ts`. -/
def STATIC_MODELS : List CursorModelDef :=
  [⟨"auto", "Auto", false, 200000, 32768⟩,
   ⟨"composer-1.5", "Composer 1.5", false, 200000, 32768⟩,
   ⟨"composer-1", "Composer 1", false, 200000, 32768⟩,
   ⟨"opus-4.6-thinking", "Claude 4.6 Opus (Thinking)", true, 200000, 32000⟩,
   ⟨"opus-4.6", "Claude 4.6 Opus", false, 200000, 32000⟩,
   ⟨"opus-4.5-thinking", "Claude 4.5 Opus (Thinking)", true, 200000, 32000⟩,
   ⟨"opus-4.5", "Claude 4.5 Opus", false, 200000, 32000⟩,
   ⟨"sonnet-4.6-thinking", "Claude 4.6 Sonnet (Thinking)", true, 200000, 32000⟩,
   ⟨"sonnet-4.6", "Claude 4.6 Sonnet", false, 200000, 32000⟩,
   ⟨"sonnet-4.5-thinking", "Claude 4.5 Sonnet (Thinking)", true, 200000, 32000⟩,
   ⟨"sonnet-4.5", "Claude 4.5 Sonnet", false, 200000, 32000⟩,
   ⟨"gpt-5.3-codex", "GPT-5.3 Codex", false, 200000, 32768⟩,
   ⟨"gpt-5.3-codex-low", "GPT-5.3 Codex Low", false, 200000, 32768⟩,
   ⟨"gpt-5.3-codex-high", "GPT-5.3 Codex High", true, 200000, 32768⟩,
   ⟨"gpt-5.3-codex-xhigh", "GPT-5.3 Codex Extra High", true, 200000, 32768⟩,
   ⟨"gpt-5.3-codex-fast", "GPT-5.3 Codex Fast", false, 200000, 32768⟩,
   ⟨"gpt-5.3-codex-low-fast", "GPT-5.3 Codex Low Fast", false, 200000, 32768⟩,
   ⟨"gpt-5.3-codex-high-fast", "GPT-5.3 Codex High Fast", true, 200000, 32768⟩,
   ⟨"gpt-5.3-codex-xhigh-fast", "GPT-5.3 Codex Extra High Fast", true, 200000, 32768⟩,
   ⟨"gpt-5.2", "GPT-5.2", false, 200000, 32768⟩,
   ⟨"gpt-5.2-high", "GPT-5.2 High", true, 200000, 32768⟩,
   ⟨"gpt-5.2-codex", "GPT-5.2 Codex", false, 200000, 32768⟩,
   ⟨"gpt-5.2-codex-high", "GPT-5.2 Codex High", true, 200000, 32768⟩,
   ⟨"gpt-5.2-codex-low", "GPT-5.2 Codex Low", false, 200000, 32768⟩,
   ⟨"gpt-5.2-codex-xhigh", "GPT-5.2 Codex Extra High", true, 200000, 32768⟩,
   ⟨"gpt-5.2-codex-fast", "GPT-5.2 Codex Fast", false, 200000, 32768⟩,
   ⟨"gpt-5.2-codex-high-fast", "GPT-5.2 Codex High Fast", true, 200000, 32768⟩,
   ⟨"gpt-5.2-codex-low-fast", "GPT-5.2 Codex Low Fast", false, 200000, 32768⟩,
   ⟨"gpt-5.2-codex-xhigh-fast", "GPT-5.2 Codex Extra High Fast", true, 200000, 32768⟩,
   ⟨"gpt-5.1-high", "GPT-5.1 High", true, 200000, 32768⟩,
   ⟨"gpt-5.1-codex-max", "GPT-5.1 Codex Max", true, 200000, 32768⟩,
   ⟨"gpt-5.1-codex-max-high", "GPT-5.1 Codex Max High", true, 200000, 32768⟩,
   ⟨"gpt-5.1-codex-mini", "GPT-5.1 Codex Mini", false, 200000, 32768⟩,
   ⟨"gemini-3-pro", "Gemini 3 Pro", false, 1000000, 65536⟩,
   ⟨"gemini-3-flash", "Gemini 3 Flash", false, 1000000, 65536⟩,
   ⟨"grok", "Grok", false, 131072, 32768⟩]

/-- `STATIC_MODELS_MAP.get id`: the table entry for a known model id.
The ids in the table are pairwise distinct, so first-match lookup
models the JavaScript `Map`. -/
def staticLookup (id : String) : Option CursorModelDef :=
  STATIC_MODELS.find? (fun m => m.id == id)

/-- Suffix test on JavaScript strings, modelling an end-anchored regex
alternative. -/
def endsWithL (s : String) (suf : String) : Bool :=
  decide (suf.data <:+ s.data)

/-- `inferReasoning` from `src/index.ts`: the end-anchored regex
`(-thinking|-high|-xhigh|-max-high)$` applied to the model id. -/
def inferReasoning (id : String) : Bool :=
  endsWithL id "-thinking" || endsWithL id "-high" ||
    endsWithL id "-xhigh" || endsWithL id "-max-high"

/-- Character class `[a-zA-Z0-9._-]` of the discovery line regex. -/
def isIdChar (c : Char) : Bool :=
  c.isAlpha || c.isDigit || c == '.' || c == '_' || c == '-'

/-- Character class `[a-zA-Z0-9]` (first character of a model id). -/
def isAlnumChar (c : Char) : Bool := c.isAlpha || c.isDigit

/-- Does a character string spell one of the parenthetical status
markers `current`, `default`, or `current,\s*default`? -/
def markerOk (m : Str) : Bool :=
  m == chars "current" || m == chars "default" ||
    (decide (chars "current," <+: m) &&
      (m.drop 8).dropWhile isJsWs == chars "default")

/-- Does the rest of a line match `\s+\((current|default|current,\s*default)\)`
exactly to its end?  This is the optional trailing group of the
discovery line regex. -/
def statusSuffixMatch (s : Str) : Bool :=
  let w := s.takeWhile isJsWs
  let r := s.drop w.length
  decide (w ≠ []) &&
    (match r with
     | '(' :: rest =>
       decide (rest ≠ []) && decide (rest.getLast? = some ')') && markerOk rest.dropLast
     | _ => false)

/-- The lazy group `(.+?)` of the discovery regex followed by the
optional status suffix: return the shortest nonempty prefix of `tail`
whose remainder matches the status suffix exactly, or all of `tail`
when no remainder does (the backtracking order of the JavaScript
engine). -/
def findNameCut (pre : Str) (rem : Str) : Str :=
  match rem with
  | [] => pre.reverse
  | c :: rest =>
    if pre ≠ [] ∧ statusSuffixMatch rem then pre.reverse
    else findNameCut (c :: pre) rest

/-- Match one trimmed discovery output line against the regex
`^([a-zA-Z0-9][a-zA-Z0-9._-]*)\s+-\s+(.+?)(?:\s+\((?:current|default|current,\s*default)\))?$`,
returning the two capture groups (model id and raw display name). -/
def matchModelLine (t : Str) : Option (Str × Str) :=
  let idL := t.takeWhile isIdChar
  match idL with
  | [] => none
  | c0 :: _ =>
    if isAlnumChar c0 then
      let r1 := t.drop idL.length
      let w1 := r1.takeWhile isJsWs
      if w1 = [] then none
      else
        match r1.drop w1.length with
        | '-' :: r2 =>
          let w2 := r2.takeWhile isJsWs
          if w2 = [] then none
          else
            let tail := r2.drop w2.length
            if tail = [] then none
            else some (idL, findNameCut [] tail)
        | _ => none
    else none

/-- `output.split("\n")`: the segments between newline characters,
empty segments included (a trailing newline yields a final empty
segment, as in JavaScript). -/
def splitNewlines : Str → List Str
  | [] => [[]]
  | c :: rest =>
    let r := splitNewlines rest
    if c = '\n' then [] :: r
    else (c :: r.headD []) :: r.tail

/-- The `trim` / header-skip / regex-match / attribute-fill body of the
`for` loop of `parseAgentModelsOutput`, for one raw line. -/
def lineToModel (line : Str) : Option CursorModelDef :=
  let trimmed := trimL line
  if trimmed = [] then none
  else if (chars "Available").isPrefixOf trimmed ||
      (chars "Tip:").isPrefixOf trimmed then none
  else
    match matchModelLine trimmed with
    | none => none
    | some (idL, nameL) =>
      let id := idL.asString
      let rawName := (trimL nameL).asString
      match staticLookup id with
      | some known =>
        some ⟨id, rawName, known.reasoning, known.contextWindow, known.maxTokens⟩
      | none =>
        some ⟨id, rawName, inferReasoning id, 200000, 32768⟩

/-- `parseAgentModelsOutput` from `src/index.ts`: split the discovery
output on newlines and collect the models of the matching lines. -/
def parseAgentModelsOutput (output : String) : List CursorModelDef :=
  (splitNewlines output.data).filterMap lineToModel

/-! ## Discovery client outcome (`runAgentModels`)

`runAgentModels` settles its promise from exactly one of three
callbacks: the discovery timeout, the `error` event of the spawned
child (spawn failure), or the `close` event.  `DiscoveryOutcome`
records which callback settles the promise, with the data that
callback sees. -/

/-- The callback that settles the `runAgentModels` promise first. -/
inductive DiscoveryOutcome where
  | spawnError (msg : String)
  | timedOut
  | closed (code : Option Int) (stdout : String) (stderr : String)

/-- Rendering of a Node exit code in a template literal (`null` when
the process was terminated by a signal). -/
def codeStr (code : Option Int) : String :=
  match code with
  | some n => toString n
  | none => "null"

/-- The settled value of the `runAgentModels` promise: `Except.error`
models rejection, `Except.ok` resolution, following the timeout,
`error` and `close` handlers of `src/index.ts`. -/
def runAgentModelsResult : DiscoveryOutcome → Except String (List CursorModelDef)
  | .spawnError msg => .error msg
  | .timedOut => .error "agent models timed out after 15000ms"
  | .closed code stdout stderr =>
    if code ≠ some 0 then
      .error ("agent models exited with code " ++ codeStr code ++ ": " ++
        (trimL stderr.data).asString)
    else
      match parseAgentModelsOutput stdout with
      | [] => .error "agent models returned no models"
      | ms => .ok ms

/-- The timeout callback is the only one that sends the subprocess a
termination signal (`child.kill("SIGTERM")`). -/
def discoverySendsSigterm : DiscoveryOutcome → Bool
  | .timedOut => true
  | _ => false

/-! ## The stream translator (`streamCursorCli`)

The translator owns one subprocess invocation.  Its mutable state is
the output message (here: the list of text content blocks, the
open-block flag, the running total of accumulated text, the stop
reason and the optional error message).  The events it pushes on the
normalized stream are modelled by `SEvent`; the partial-message
snapshots carried on the wire are omitted, since they are projections
of the state that no verified property mentions. -/

/-- A normalized stream event pushed by the translator, together with
`streamEnd` marking a call of `stream.end()`. -/
inductive SEvent where
  | start
  | text_start (contentIndex : Nat)
  | text_delta (contentIndex : Nat) (delta : Str)
  | text_end (contentIndex : Nat) (content : Str)
  | done (reason : Str)
  | error (reason : Str)
  | streamEnd
deriving Repr, DecidableEq

/-- The translator state: the content blocks of the output message
(all blocks the translator ever creates are text blocks), the
open-block flag, the accumulated text, and the terminal metadata of
the output message. -/
structure TState where
  content : List Str
  textBlockOpen : Bool
  accumulatedText : Str
  stopReason : Str
  errorMessage : Option Str
deriving Repr, DecidableEq

/-- The state at invocation start: empty content, no open block, stop
reason initialized to `stop` as in the `output` literal. -/
def initState : TState :=
  { content := [], textBlockOpen := false, accumulatedText := [],
    stopReason := chars "stop", errorMessage := none }

/-- A content block of a parsed `assistant` event: a text block, or a
block of any other type (skipped by the translator). -/
inductive CBlock where
  | text (t : Str)
  | other
deriving Repr, DecidableEq

/-- The value keyed by a tool name in a `tool_call` event
(`CursorToolCallPayload`); only `args` is ever read. -/
structure ToolPayload where
  args : Option Json

/-- A parsed stream event of the Cursor CLI protocol
(`CursorStreamEvent`): the tagged union dispatched on by the `line`
handler.  The key list of `tool_call` carries the object keys in
insertion order, as `Object.keys` enumerates them. -/
inductive CEvent where
  | assistant (content : List CBlock)
  | tool_call (subtype : Str) (toolCall : List (Str × ToolPayload))
  | result (subtype : Str) (durationMs : Int)
  | unknown

/-- Open a new text block if none is open: push an empty text block
and emit `text_start` with its index (`output.content.length - 1`
after the push). -/
def openBlockIfNeeded (st : TState) : TState × List SEvent :=
  if st.textBlockOpen then (st, [])
  else
    ({ st with content := st.content ++ [[]], textBlockOpen := true },
     [SEvent.text_start st.content.length])

/-- Append one text fragment through the open/append/delta path shared
by assistant text and tool markers: ensure a block is open, append the
fragment to the last block and to the running total, and emit
`text_delta` carrying exactly the fragment. -/
def pushFragment (st : TState) (frag : Str) : TState × List SEvent :=
  let o := openBlockIfNeeded st
  let idx := o.1.content.length - 1
  ({ o.1 with
      content := o.1.content.set idx (o.1.content.getD idx [] ++ frag),
      accumulatedText := o.1.accumulatedText ++ frag },
   o.2 ++ [SEvent.text_delta idx frag])

/-- The `for` loop over the content blocks of an `assistant` event:
skip non-text blocks and blocks whose text trims to nothing, push the
rest. -/
def handleAssistant (st : TState) : List CBlock → TState × List SEvent
  | [] => (st, [])
  | CBlock.other :: bs => handleAssistant st bs
  | CBlock.text t :: bs =>
    if trimL t = [] then handleAssistant st bs
    else
      let p := pushFragment st t
      let rest := handleAssistant p.1 bs
      (rest.1, p.2 ++ rest.2)

/-- The inline marker line rendered for a started tool call:
`"\n⏳ [" + toolName + "] " + brief + "\n"` where `brief` is the JSON
rendering of the arguments truncated to 120 characters with a trailing
ellipsis when longer. -/
def toolMarker (k : Str) (p : ToolPayload) : Str :=
  let argsSnippet := Json.render (p.args.getD (Json.obj []))
  let brief :=
    if argsSnippet.length > 120 then argsSnippet.take 120 ++ chars "…"
    else argsSnippet
  chars "\n⏳ [" ++ toPiToolName k ++ chars "] " ++ brief ++ chars "\n"

/-- The `line` handler of `streamCursorCli` after parsing: dispatch on
the event type, translate assistant text and started tool calls, and
ignore everything else. -/
def handleLine (st : TState) : CEvent → TState × List SEvent
  | CEvent.assistant blocks => handleAssistant st blocks
  | CEvent.tool_call subtype toolCall =>
    match toolCall with
    | [] => (st, [])
    | (k, p) :: _ =>
      if k = [] then (st, [])
      else if subtype = chars "started" then pushFragment st (toolMarker k p)
      else (st, [])
  | CEvent.result _ _ => (st, [])
  | CEvent.unknown => (st, [])

/-- Fold the `line` handler over a list of parsed events, collecting
the pushed stream events. -/
def handleLines (st : TState) : List CEvent → TState × List SEvent
  | [] => (st, [])
  | ev :: evs =>
    let p := handleLine st ev
    let rest := handleLines p.1 evs
    (rest.1, p.2 ++ rest.2)

/-- The `close` handler of `streamCursorCli`: close an open text block
(emitting `text_end` with the full accumulated text), then decide the
terminal state in priority order — `aborted` when the cancellation
signal fired, `error` when the exit code is non-zero and no text was
ever accumulated (the message is the trimmed captured stderr, or the
generic exit-code message when that is empty), `stop` otherwise — and
end the stream. -/
def closeStep (st : TState) (aborted : Bool) (code : Option Int) (stderrRaw : Str) :
    TState × List SEvent :=
  let c :=
    if st.textBlockOpen then
      ({ st with textBlockOpen := false },
       [SEvent.text_end (st.content.length - 1) st.accumulatedText])
    else (st, [])
  if aborted then
    ({ c.1 with stopReason := chars "aborted" },
     c.2 ++ [SEvent.error (chars "aborted"), SEvent.streamEnd])
  else if code ≠ some 0 ∧ c.1.accumulatedText = [] then
    let stderrText := trimL stderrRaw
    ({ c.1 with
        stopReason := chars "error",
        errorMessage := some (if stderrText ≠ [] then stderrText
          else chars "Cursor CLI exited with code " ++ chars (codeStr code)) },
     c.2 ++ [SEvent.error (chars "error"), SEvent.streamEnd])
  else
    (c.1, c.2 ++ [SEvent.done (chars "stop"), SEvent.streamEnd])

/-- The `error` handler of the spawned child in `streamCursorCli`
(spawn failure): set the error terminal state, push `error`, and end
the stream.  It does not close an open text block. -/
def spawnErrorStep (st : TState) (msg : Str) : TState × List SEvent :=
  ({ st with stopReason := chars "error", errorMessage := some msg },
   [SEvent.error (chars "error"), SEvent.streamEnd])

/-- One whole streaming invocation, as the environment can drive it.

`exited` is the ordinary lifecycle: the stdout lines arrive (already
parsed), then the `close` event fires once, with the cancellation flag
as observed at that point.  `spawnFailed` is the spawn-failure
lifecycle: no stdout line ever arrives, the `error` event fires, and
then — as Node guarantees for a child with piped stdio that failed to
spawn — the `close` event also fires on the same handle. -/
inductive Invocation where
  | exited (lines : List CEvent) (aborted : Bool) (code : Option Int) (stderrRaw : Str)
  | spawnFailed (msg : Str) (code : Option Int) (stderrRaw : Str)

/-- Run one invocation end to end: the initial `start` push, the line
handler over the arriving events, then the handlers that fire at
process end, in their firing order. -/
def runStream : Invocation → TState × List SEvent
  | .exited lines aborted code stderrRaw =>
    let l := handleLines initState lines
    let c := closeStep l.1 aborted code stderrRaw
    (c.1, SEvent.start :: l.2 ++ c.2)
  | .spawnFailed msg code stderrRaw =>
    let e := spawnErrorStep initState msg
    let c := closeStep e.1 false code stderrRaw
    (c.1, SEvent.start :: e.2 ++ c.2)

/-- The stream-event trace of an invocation. -/
def trace (inv : Invocation) : List SEvent := (runStream inv).2

/-- The final translator state of an invocation. -/
def finalState (inv : Invocation) : TState := (runStream inv).1

/-- Is a stream event terminal (`done` or `error`)? -/
def isTerminal : SEvent → Bool
  | .done _ => true
  | .error _ => true
  | _ => false

/-- Is a stream event a `text_start`? -/
def isTextStart : SEvent → Bool
  | .text_start _ => true
  | _ => false

/-- Is a stream event a `text_end`? -/
def isTextEnd : SEvent → Bool
  | .text_end _ _ => true
  | _ => false

/-- Is a stream event a `stream.end()` call? -/
def isStreamEnd : SEvent → Bool
  | .streamEnd => true
  | _ => false

/-- The payloads of the `text_delta` events of a trace, in order. -/
def deltasOf (evs : List SEvent) : List Str :=
  evs.filterMap (fun e => match e with
    | SEvent.text_delta _ d => some d
    | _ => none)

/-- Concatenation of all delivered text fragments of a trace. -/
def catDeltas (evs : List SEvent) : Str := (deltasOf evs).flatten

/-! ## Invariants of the line-handling phase -/

/-- Invariant tying the translator state to the trace the line handler
has produced so far: at most one text block is ever opened per
invocation (at content index 0), it is never closed and no terminal
event is emitted before the process ends, and the accumulated text is
the concatenation of all delivered deltas. -/
structure LineInv (st : TState) (evs : List SEvent) : Prop where
  content_len : st.content.length = (if st.textBlockOpen then 1 else 0)
  starts : evs.countP isTextStart = (if st.textBlockOpen then 1 else 0)
  start_zero : ∀ N, SEvent.text_start N ∈ evs → N = 0
  no_end : evs.countP isTextEnd = 0
  no_term : evs.countP isTerminal = 0
  no_send : evs.countP isStreamEnd = 0
  acc : st.accumulatedText = catDeltas evs
  reason : st.stopReason = chars "stop"

lemma catDeltas_append (a b : List SEvent) :
    catDeltas (a ++ b) = catDeltas a ++ catDeltas b := by
  simp [catDeltas, deltasOf]

lemma lineInv_init : LineInv initState [] := by
  constructor <;> simp [initState, catDeltas, deltasOf]

lemma lineInv_pushFragment {st : TState} {evs : List SEvent}
    (h : LineInv st evs) (frag : Str) :
    LineInv (pushFragment st frag).1 (evs ++ (pushFragment st frag).2) := by
  have hcl := h.content_len
  cases hop : st.textBlockOpen
  · simp only [hop, if_false] at hcl
    refine ⟨?_, ?_, ?_, ?_, ?_, ?_, ?_, ?_⟩ <;>
      simp [pushFragment, openBlockIfNeeded, hop, List.countP_append,
        List.countP_cons, isTextStart, isTextEnd, isTerminal, isStreamEnd,
        catDeltas_append, h.starts, h.no_end, h.no_term, h.no_send, h.acc,
        h.reason, catDeltas, deltasOf, hcl]
    intro N hN
    rcases hN with hN | hN
    · exact h.start_zero N hN
    · omega
  · simp only [hop, if_true] at hcl
    refine ⟨?_, ?_, ?_, ?_, ?_, ?_, ?_, ?_⟩ <;>
      simp [pushFragment, openBlockIfNeeded, hop, List.countP_append,
        List.countP_cons, isTextStart, isTextEnd, isTerminal, isStreamEnd,
        catDeltas_append, h.starts, h.no_end, h.no_term, h.no_send, h.acc,
        h.reason, catDeltas, deltasOf, hcl]
    exact fun N hN => h.start_zero N hN

lemma lineInv_handleAssistant {st : TState} {evs : List SEvent}
    (h : LineInv st evs) (blocks : List CBlock) :
    LineInv (handleAssistant st blocks).1 (evs ++ (handleAssistant st blocks).2) := by
  induction blocks generalizing st evs with
  | nil => simpa [handleAssistant] using h
  | cons b bs ih =>
    cases b with
    | other => simpa [handleAssistant] using ih h
    | text t =>
      by_cases ht : trimL t = []
      · simpa [handleAssistant, ht] using ih h
      · have h1 := lineInv_pushFragment h t
        have h2 := ih h1
        simpa [handleAssistant, ht, List.append_assoc] using h2

lemma lineInv_handleLine {st : TState} {evs : List SEvent}
    (h : LineInv st evs) (ev : CEvent) :
    LineInv (handleLine st ev).1 (evs ++ (handleLine st ev).2) := by
  cases ev with
  | assistant blocks => simpa [handleLine] using lineInv_handleAssistant h blocks
  | tool_call subtype toolCall =>
    cases toolCall with
    | nil => simpa [handleLine] using h
    | cons kp rest =>
      by_cases hk : kp.1 = []
      · simpa [handleLine, hk] using h
      · by_cases hs : subtype = chars "started"
        · simpa [handleLine, hk, hs] using
            lineInv_pushFragment h (toolMarker kp.1 kp.2)
        · simpa [handleLine, hk, hs] using h
  | result s d => simpa [handleLine] using h
  | unknown => simpa [handleLine] using h

lemma lineInv_handleLines {st : TState} {evs : List SEvent}
    (h : LineInv st evs) (lines : List CEvent) :
    LineInv (handleLines st lines).1 (evs ++ (handleLines st lines).2) := by
  induction lines generalizing st evs with
  | nil => simpa [handleLines] using h
  | cons ev evs2 ih =>
    have h1 := lineInv_handleLine h ev
    have h2 := ih h1
    simpa [handleLines, List.append_assoc] using h2

lemma lineInv_run (lines : List CEvent) :
    LineInv (handleLines initState lines).1 (handleLines initState lines).2 := by
  simpa using lineInv_handleLines lineInv_init lines

/-- Shape of the events pushed by the `close` handler: the optional
`text_end` for the open block, then exactly one terminal event, then
the end of the stream. -/
lemma closeStep_shape (st : TState) (aborted : Bool) (code : Option Int)
    (stderrRaw : Str) :
    ∃ t, isTerminal t = true ∧ isTextStart t = false ∧ isTextEnd t = false ∧
      (closeStep st aborted code stderrRaw).2 =
        (if st.textBlockOpen then
          [SEvent.text_end (st.content.length - 1) st.accumulatedText]
         else []) ++ [t, SEvent.streamEnd] := by
  unfold closeStep
  cases aborted with
  | true =>
    refine ⟨SEvent.error (chars "aborted"), by simp [isTerminal],
      by simp [isTextStart], by simp [isTextEnd], ?_⟩
    cases hop : st.textBlockOpen <;> simp [hop]
  | false =>
    by_cases hc : code ≠ some 0 ∧ st.accumulatedText = []
    · refine ⟨SEvent.error (chars "error"), by simp [isTerminal],
        by simp [isTextStart], by simp [isTextEnd], ?_⟩
      cases hop : st.textBlockOpen <;> simp [hop, hc]
    · refine ⟨SEvent.done (chars "stop"), by simp [isTerminal],
        by simp [isTextStart], by simp [isTextEnd], ?_⟩
      cases hop : st.textBlockOpen <;> simp [hop, hc]

/-- A nonempty suffix determines the last element of the list it is a
suffix of. -/
lemma getLast?_of_suffix {l s : List Char} (h : l <:+ s) (hne : l ≠ []) :
    s.getLast? = l.getLast? := by
  obtain ⟨t, rfl⟩ := h
  exact List.getLast?_append_of_ne_nil t hne

/-! ## The claims -/

/-- C1 (code bug): on a spawn failure the child handle emits `error`
and then — as Node guarantees once stdio pipes exist — `close`; the
translator registers both handlers with no one-shot guard, so the
trace of a spawn-failed invocation carries two terminal events and two
`stream.end()` calls, where the claim demands exactly one.  The
ordinary exit paths (normal exit, non-zero exit, cancellation) do emit
exactly one terminal event. -/
theorem C1_spawn_failure_double_terminal :
    (trace (Invocation.spawnFailed (chars "spawn agent ENOENT") none [])).countP
        isTerminal = 2 ∧
    (trace (Invocation.spawnFailed (chars "spawn agent ENOENT") none [])).countP
        isStreamEnd = 2 ∧
    (trace (Invocation.exited [CEvent.assistant [CBlock.text (chars "Hi")]]
        false (some 0) [])).countP isTerminal = 1 ∧
    (trace (Invocation.exited [] false (some 1) (chars "boom"))).countP
        isTerminal = 1 ∧
    (trace (Invocation.exited [] true none [])).countP isTerminal = 1 := by
  decide

/-- C2: at finalization of a streaming invocation the terminal state
is decided in priority order — `aborted` when the cancellation signal
fired, else `error` when the exit code is non-zero and no text was
ever accumulated (with the error message equal to the captured stderr
text, i.e. the trimmed concatenation of the stderr chunks, or the
generic exit-code message when that is empty), else `stop`. -/
theorem C2_terminal_state_priority (lines : List CEvent) (aborted : Bool)
    (code : Option Int) (stderrRaw : Str) :
    (aborted = true →
      (finalState (Invocation.exited lines aborted code stderrRaw)).stopReason =
        chars "aborted") ∧
    (aborted = false → code ≠ some 0 →
      (handleLines initState lines).1.accumulatedText = [] →
      (finalState (Invocation.exited lines aborted code stderrRaw)).stopReason =
          chars "error" ∧
        (finalState (Invocation.exited lines aborted code stderrRaw)).errorMessage =
          some (if trimL stderrRaw ≠ [] then trimL stderrRaw
            else chars "Cursor CLI exited with code " ++ chars (codeStr code))) ∧
    (aborted = false →
      (code = some 0 ∨ (handleLines initState lines).1.accumulatedText ≠ []) →
      (finalState (Invocation.exited lines aborted code stderrRaw)).stopReason =
        chars "stop") := by
  have hL := lineInv_run lines
  refine ⟨?_, ?_, ?_⟩
  · rintro rfl
    by_cases hop : (handleLines initState lines).1.textBlockOpen <;>
      simp [finalState, runStream, closeStep, hop]
  · rintro rfl hcode hacc
    by_cases hop : (handleLines initState lines).1.textBlockOpen <;>
      simp [finalState, runStream, closeStep, hop, hcode, hacc]
  · rintro rfl hor
    have hcond : ¬ (code ≠ some 0 ∧
        (handleLines initState lines).1.accumulatedText = []) := by
      rcases hor with h | h
      · exact fun hch => hch.1 h
      · exact fun hch => h hch.2
    by_cases hop : (handleLines initState lines).1.textBlockOpen <;>
      simp [finalState, runStream, closeStep, hop, hcond, hL.reason]

/-- C2 witness: a non-zero exit with no accumulated text and stderr
` auth required \n` finalizes with state `error` and message
`auth required`. -/
theorem C2_terminal_state_priority_witness :
    (finalState (Invocation.exited [] false (some 1)
        (chars " auth required \n"))).stopReason = chars "error" ∧
    (finalState (Invocation.exited [] false (some 1)
        (chars " auth required \n"))).errorMessage = some (chars "auth required") := by
  have h := (C2_terminal_state_priority [] false (some 1)
    (chars " auth required \n")).2.1 rfl (by decide) (by rfl)
  refine ⟨h.1, ?_⟩
  rw [h.2]
  decide

/-- C5: the line parser is a total function (it is a Lean function, so
it returns for every input line and never raises); it yields nothing
when the trimmed line is empty (empty and whitespace-only lines) and
when JSON decoding of the trimmed line fails, it yields the parsed
value otherwise, and applying it twice to the same line gives equal
results. -/
theorem C5_parse_line_contract (line : String) :
    (trimL line.data = [] → parseLine line = none) ∧
    (jsonParse (trimL line.data) = none → parseLine line = none) ∧
    (∀ j, jsonParse (trimL line.data) = some j → parseLine line = some j) ∧
    parseLine line = parseLine line := by
  refine ⟨?_, ?_, ?_, rfl⟩
  · intro h
    simp [parseLine, h]
  · intro h
    by_cases ht : trimL line.data = [] <;> simp [parseLine, ht, h]
  · intro j h
    have ht : trimL line.data ≠ [] := by
      intro he
      rw [he, show jsonParse [] = none from rfl] at h
      exact Option.noConfusion h
    simp [parseLine, ht, h]

/-- C5 witness: a whitespace-only line and a malformed line yield
nothing; a well-formed `result` line yields its parsed value. -/
theorem C5_parse_line_contract_witness :
    parseLine " \t " = none ∧
    parseLine "not json" = none ∧
    parseLine " \x7b\"type\":\"result\",\"duration_ms\":12\x7d" =
      some (Json.obj [(chars "type", Json.str (chars "result")),
        (chars "duration_ms", Json.num (chars "12"))]) :=
  ⟨(C5_parse_line_contract " \t ").1 (by decide),
   (C5_parse_line_contract "not json").2.1 (by rfl),
   (C5_parse_line_contract " \x7b\"type\":\"result\",\"duration_ms\":12\x7d").2.2.1
     (Json.obj [(chars "type", Json.str (chars "result")),
       (chars "duration_ms", Json.num (chars "12"))]) (by rfl)⟩

/-- C9: a parsed `tool_call` event whose `tool_call` payload object
has no keys at all produces no stream event and leaves the translator
state — in particular the output message content — entirely
unchanged. -/
theorem C9_tool_call_empty_object_no_effect (st : TState) (subtype : Str) :
    handleLine st (CEvent.tool_call subtype []) = (st, []) := rfl

/-- C9 witness: concrete instance at the initial state. -/
theorem C9_tool_call_empty_object_no_effect_witness :
    handleLine initState (CEvent.tool_call (chars "started") []) = (initState, []) :=
  C9_tool_call_empty_object_no_effect initState (chars "started")

/-- C10: for ids not in the static table, `inferReasoning` is true
exactly when the id ends with `-thinking`, `-high`, or `-xhigh` (the
regex alternative `-max-high` is subsumed by `-high`); an id ending
with `-max` but not with `-high` is inferred as non-reasoning. -/
theorem C10_infer_reasoning_suffixes (id : String) :
    (inferReasoning id = true ↔
      (chars "-thinking" <:+ id.data ∨ chars "-high" <:+ id.data ∨
        chars "-xhigh" <:+ id.data)) ∧
    (chars "-max" <:+ id.data → ¬ chars "-high" <:+ id.data →
      inferReasoning id = false) := by
  constructor
  · unfold inferReasoning endsWithL
    simp only [Bool.or_eq_true, decide_eq_true_eq]
    constructor
    · rintro (((h | h) | h) | h)
      · exact Or.inl h
      · exact Or.inr (Or.inl h)
      · exact Or.inr (Or.inr h)
      · exact Or.inr (Or.inl (List.IsSuffix.trans (by decide) h))
    · rintro (h | h | h)
      · exact Or.inl (Or.inl (Or.inl h))
      · exact Or.inl (Or.inl (Or.inr h))
      · exact Or.inl (Or.inr h)
  · intro hmax hhigh
    have hx : id.data.getLast? = some 'x' := by
      rw [getLast?_of_suffix hmax (by decide)]
      rfl
    have hthinking : ¬ chars "-thinking" <:+ id.data := by
      intro h
      have h2 := getLast?_of_suffix h (by decide)
      rw [hx] at h2
      exact absurd h2 (by decide)
    have hxhigh : ¬ chars "-xhigh" <:+ id.data := by
      intro h
      have h2 := getLast?_of_suffix h (by decide)
      rw [hx] at h2
      exact absurd h2 (by decide)
    have hmaxhigh : ¬ chars "-max-high" <:+ id.data := fun h =>
      hhigh (List.IsSuffix.trans (by decide) h)
    simp only [inferReasoning, endsWithL, Bool.or_eq_false_iff,
      decide_eq_false_iff_not]
    exact ⟨⟨⟨hthinking, hhigh⟩, hxhigh⟩, hmaxhigh⟩

/-- C10 witness: `gpt-9-codex-max` ends with `-max` and not with
`-high` and is inferred non-reasoning; `foo-xhigh` is inferred
reasoning. -/
theorem C10_infer_reasoning_suffixes_witness :
    chars "-max" <:+ (String.data "gpt-9-codex-max") ∧
    ¬ chars "-high" <:+ (String.data "gpt-9-codex-max") ∧
    inferReasoning "gpt-9-codex-max" = false ∧
    inferReasoning "foo-xhigh" = true :=
  ⟨by decide, by decide,
   (C10_infer_reasoning_suffixes "gpt-9-codex-max").2 (by decide) (by decide),
   (C10_infer_reasoning_suffixes "foo-xhigh").1.mpr
     (Or.inr (Or.inr (by decide)))⟩

/-- C6: a started `tool_call` with tool key `k` and argument payload
`a` is appended through the same open/append/delta path as assistant
text (`pushFragment`), with a marker that contains the display name of
`k` (table entry when mapped, otherwise `k` with the trailing
`ToolCall` suffix stripped) and the JSON rendering of `a` truncated to
120 characters followed by an ellipsis exactly when the rendering is
longer than 120 characters. -/
theorem C6_tool_started_marker (st : TState) (k : Str) (p : ToolPayload)
    (rest : List (Str × ToolPayload)) (a : Json)
    (hk : k ≠ []) (ha : p.args = some a) :
    handleLine st (CEvent.tool_call (chars "started") ((k, p) :: rest)) =
      pushFragment st (toolMarker k p) ∧
    (∃ u v, toolMarker k p = u ++ toPiToolName k ++ v) ∧
    (∃ u v, toolMarker k p =
      u ++ (if (Json.render a).length > 120
        then (Json.render a).take 120 ++ chars "…" else Json.render a) ++ v) ∧
    (∀ nm, lookupToolName k = some nm → toPiToolName k = nm) ∧
    (lookupToolName k = none →
      toPiToolName k = (if chars "ToolCall" <:+ k then k.take (k.length - 8) else k)) := by
  refine ⟨?_, ?_, ?_, ?_, ?_⟩
  · simp [handleLine, hk]
  · exact ⟨chars "\n⏳ [",
      chars "] " ++ (if (Json.render a).length > 120
        then (Json.render a).take 120 ++ chars "…" else Json.render a) ++ chars "\n",
      by simp [toolMarker, ha, List.append_assoc]⟩
  · exact ⟨chars "\n⏳ [" ++ toPiToolName k ++ chars "] ", chars "\n",
      by simp [toolMarker, ha, List.append_assoc]⟩
  · intro nm h
    simp [toPiToolName, h]
  · intro h
    simp [toPiToolName, h, stripToolCallSuffix]

/-- C6 witness: the scenario tool call `shellToolCall` with args
`\x7b"cmd":"ls"\x7d` goes through `pushFragment` and its marker contains
the display name `Shell`. -/
theorem C6_tool_started_marker_witness :
    handleLine initState (CEvent.tool_call (chars "started")
      [(chars "shellToolCall",
        ⟨some (Json.obj [(chars "cmd", Json.str (chars "ls"))])⟩)]) =
      pushFragment initState (toolMarker (chars "shellToolCall")
        ⟨some (Json.obj [(chars "cmd", Json.str (chars "ls"))])⟩) ∧
    (∃ u v, toolMarker (chars "shellToolCall")
        ⟨some (Json.obj [(chars "cmd", Json.str (chars "ls"))])⟩ =
      u ++ chars "Shell" ++ v) := by
  have h := C6_tool_started_marker initState (chars "shellToolCall")
    ⟨some (Json.obj [(chars "cmd", Json.str (chars "ls"))])⟩ []
    (Json.obj [(chars "cmd", Json.str (chars "ls"))]) (by decide) rfl
  refine ⟨h.1, ?_⟩
  have h2 := h.2.1
  rwa [show toPiToolName (chars "shellToolCall") = chars "Shell" from rfl] at h2

/-- The reject conditions exactly as the claim lists them for the
discovery call: timeout, non-zero exit, or zero parsed models.  This
is the claim-side condition, to be compared against the code-side
`runAgentModelsResult`. -/
def claimedRejectCondition : DiscoveryOutcome → Prop
  | .timedOut => True
  | .closed code stdout _ => code ≠ some 0 ∨ parseAgentModelsOutput stdout = []
  | .spawnError _ => False

/-- C7 counterexample: a spawn failure (the `error` event of the
discovery child, e.g. `ENOENT`) rejects the discovery promise although
none of the three conditions listed by the claim holds, so the claimed
"rejects exactly when" equivalence is false. -/
theorem C7_counterexample_spawn_error :
    ¬ ∀ o : DiscoveryOutcome,
        (∃ e, runAgentModelsResult o = Except.error e) ↔ claimedRejectCondition o := by
  intro h
  exact (h (DiscoveryOutcome.spawnError "spawn agent ENOENT")).mp
    ⟨"spawn agent ENOENT", rfl⟩

/-- C7 (amended): the discovery call rejects exactly when the spawn
fails, the timeout elapses (and the timeout path — and only it — sends
the subprocess a termination signal), the exit code is non-zero, or
zero output lines parse into model definitions; in every other case it
resolves with the parsed model list. -/
theorem C7_amended_reject_exactly (o : DiscoveryOutcome) :
    ((∃ e, runAgentModelsResult o = Except.error e) ↔
      ((∃ m, o = DiscoveryOutcome.spawnError m) ∨ claimedRejectCondition o)) ∧
    (∀ ms, runAgentModelsResult o = Except.ok ms →
      ∃ c out err, o = DiscoveryOutcome.closed c out err ∧
        ms = parseAgentModelsOutput out) ∧
    (discoverySendsSigterm o = true ↔ o = DiscoveryOutcome.timedOut) := by
  cases o with
  | spawnError msg =>
    refine ⟨?_, ?_, ?_⟩
    · exact ⟨fun _ => Or.inl ⟨msg, rfl⟩, fun _ => ⟨msg, rfl⟩⟩
    · intro ms h
      exact Except.noConfusion h
    · simp [discoverySendsSigterm]
  | timedOut =>
    refine ⟨?_, ?_, ?_⟩
    · simp [runAgentModelsResult, claimedRejectCondition]
    · intro ms h
      exact Except.noConfusion h
    · simp [discoverySendsSigterm]
  | closed code stdout stderr =>
    by_cases hc : code = some 0
    · subst hc
      cases hp : parseAgentModelsOutput stdout with
      | nil =>
        refine ⟨?_, ?_, ?_⟩
        · simp [runAgentModelsResult, claimedRejectCondition, hp]
        · intro ms h
          simp [runAgentModelsResult, hp] at h
        · simp [discoverySendsSigterm]
      | cons m ms2 =>
        refine ⟨?_, ?_, ?_⟩
        · simp [runAgentModelsResult, claimedRejectCondition, hp]
        · intro ms h
          refine ⟨some 0, stdout, stderr, rfl, ?_⟩
          simp [runAgentModelsResult, hp] at h
          rw [hp, ← h]
        · simp [discoverySendsSigterm]
    · refine ⟨?_, ?_, ?_⟩
      · simp [runAgentModelsResult, claimedRejectCondition, hc]
      · intro ms h
        simp [runAgentModelsResult, hc] at h
      · simp [discoverySendsSigterm]

/-- C7 witness: a spawn failure rejects; a clean exit with one
parseable line resolves with the parsed model list. -/
theorem C7_amended_reject_exactly_witness :
    (∃ e, runAgentModelsResult (DiscoveryOutcome.spawnError "boom") =
      Except.error e) ∧
    (∃ c out err, DiscoveryOutcome.closed (some 0) "auto - Auto" "" =
        DiscoveryOutcome.closed c out err ∧
      parseAgentModelsOutput "auto - Auto" = parseAgentModelsOutput out) :=
  ⟨(C7_amended_reject_exactly (DiscoveryOutcome.spawnError "boom")).1.mpr
     (Or.inl ⟨"boom", rfl⟩),
   (C7_amended_reject_exactly (DiscoveryOutcome.closed (some 0) "auto - Auto" "")).2.1
     (parseAgentModelsOutput "auto - Auto") (by rfl)⟩

/-- C8: every parsed discovery line yields one model definition whose
reasoning/context-window/max-token attributes come from the static
table when the id is known, and the defaults 200000/32768 otherwise;
and the two-line output of the claim parses to exactly the two
expected model definitions (with the optional trailing parenthetical
status marker stripped from the display name). -/
theorem C8_discovery_output_parse (output : String) :
    (∀ d ∈ parseAgentModelsOutput output,
      (∀ m, staticLookup d.id = some m →
        d.reasoning = m.reasoning ∧ d.contextWindow = m.contextWindow ∧
          d.maxTokens = m.maxTokens) ∧
      (staticLookup d.id = none →
        d.contextWindow = 200000 ∧ d.maxTokens = 32768)) ∧
    parseAgentModelsOutput "auto - Auto\nsonnet-4.6 - Claude 4.6 Sonnet  (current)\n" =
      [⟨"auto", "Auto", false, 200000, 32768⟩,
       ⟨"sonnet-4.6", "Claude 4.6 Sonnet", false, 200000, 32000⟩] := by
  constructor
  · intro d hd
    obtain ⟨line, hmem, hsome⟩ := List.mem_filterMap.mp hd
    simp only [lineToModel] at hsome
    split at hsome
    · exact Option.noConfusion hsome
    · split at hsome
      · exact Option.noConfusion hsome
      · split at hsome
        · exact Option.noConfusion hsome
        · rename_i idL nameL heq
          split at hsome
          · rename_i known hlook
            injection hsome with hd2
            subst hd2
            constructor
            · intro m hm
              have hm2 : staticLookup idL.asString = some m := hm
              rw [hlook] at hm2
              injection hm2 with hm3
              subst hm3
              exact ⟨rfl, rfl, rfl⟩
            · intro hnone
              have hn2 : staticLookup idL.asString = none := hnone
              rw [hlook] at hn2
              exact Option.noConfusion hn2
          · rename_i hlook
            injection hsome with hd2
            subst hd2
            exact ⟨fun m hm => absurd (hlook ▸ (hm : staticLookup idL.asString = some m))
                (by simp), fun _ => ⟨rfl, rfl⟩⟩
  · decide

/-- C8 witness: the discovered `sonnet-4.6` entry is in the parse of
the claimed output, its table entry is found, and its max-token
attribute is the table value 32000. -/
theorem C8_discovery_output_parse_witness :
    staticLookup "sonnet-4.6" =
      some ⟨"sonnet-4.6", "Claude 4.6 Sonnet", false, 200000, 32000⟩ ∧
    ((⟨"sonnet-4.6", "Claude 4.6 Sonnet", false, 200000, 32000⟩ : CursorModelDef) ∈
      parseAgentModelsOutput "auto - Auto\nsonnet-4.6 - Claude 4.6 Sonnet  (current)\n") ∧
    (⟨"sonnet-4.6", "Claude 4.6 Sonnet", false, 200000, 32000⟩ : CursorModelDef).maxTokens
      = 32000 := by
  refine ⟨by rfl, by decide, ?_⟩
  exact (((C8_discovery_output_parse
      "auto - Auto\nsonnet-4.6 - Claude 4.6 Sonnet  (current)\n").1
    ⟨"sonnet-4.6", "Claude 4.6 Sonnet", false, 200000, 32000⟩ (by decide)).1
    ⟨"sonnet-4.6", "Claude 4.6 Sonnet", false, 200000, 32000⟩ (by rfl)).2.2

/-- The text fragments of an assistant event that the translator
delivers: text blocks whose content does not trim to nothing, in
order. -/
def nonBlankTexts (blocks : List CBlock) : List Str :=
  blocks.filterMap (fun b => match b with
    | CBlock.text t => if trimL t = [] then none else some t
    | CBlock.other => none)

lemma deltasOf_append (a b : List SEvent) :
    deltasOf (a ++ b) = deltasOf a ++ deltasOf b := by
  simp [deltasOf]

lemma pushFragment_deltas (st : TState) (frag : Str) :
    deltasOf (pushFragment st frag).2 = [frag] ∧
    (pushFragment st frag).1.accumulatedText = st.accumulatedText ++ frag := by
  cases hop : st.textBlockOpen <;>
    simp [pushFragment, openBlockIfNeeded, hop, deltasOf]

lemma handleAssistant_deltas (st : TState) (blocks : List CBlock) :
    deltasOf (handleAssistant st blocks).2 = nonBlankTexts blocks ∧
    (handleAssistant st blocks).1.accumulatedText =
      st.accumulatedText ++ (nonBlankTexts blocks).flatten := by
  induction blocks generalizing st with
  | nil => simp [handleAssistant, nonBlankTexts, deltasOf]
  | cons b bs ih =>
    cases b with
    | other => simpa [handleAssistant, nonBlankTexts] using ih st
    | text t =>
      by_cases ht : trimL t = []
      · simpa [handleAssistant, nonBlankTexts, ht] using ih st
      · have hp := pushFragment_deltas st t
        have hih := ih (pushFragment st t).1
        constructor
        · simp [handleAssistant, ht, deltasOf_append, hp.1, hih.1, nonBlankTexts]
        · simp [handleAssistant, ht, hih.2, hp.2, nonBlankTexts, List.append_assoc]

lemma closeStep_deltas (st : TState) (aborted : Bool) (code : Option Int)
    (stderrRaw : Str) :
    deltasOf (closeStep st aborted code stderrRaw).2 = [] := by
  obtain ⟨t, hterm, hts, hte, hshape⟩ := closeStep_shape st aborted code stderrRaw
  rw [hshape]
  by_cases hop : st.textBlockOpen <;> cases t <;>
    simp_all [deltasOf, isTerminal]

lemma deltasOf_start_cons (l : List SEvent) :
    deltasOf (SEvent.start :: l) = deltasOf l := by
  simp [deltasOf]

lemma closeStep_no_starts (st : TState) (aborted : Bool) (code : Option Int)
    (stderrRaw : Str) :
    (closeStep st aborted code stderrRaw).2.countP isTextStart = 0 := by
  obtain ⟨t, hterm, hts, hte, hshape⟩ := closeStep_shape st aborted code stderrRaw
  rw [hshape]
  by_cases hop : st.textBlockOpen <;>
    simp [hop, List.countP_append, List.countP_cons, hts,
      show isTextStart (SEvent.text_end (st.content.length - 1)
        st.accumulatedText) = false from rfl,
      show isTextStart SEvent.streamEnd = false from rfl]

/-- C3 counterexample: the fragment `" "` is non-empty, yet the
translator processes it by skipping it entirely (the source guards on
the trimmed fragment): no `text_delta` is emitted and the state is
unchanged, where the claim demands a delta carrying `" "`. -/
theorem C3_counterexample_whitespace_fragment :
    chars " " ≠ [] ∧
    handleLine initState (CEvent.assistant [CBlock.text (chars " ")]) =
      (initState, []) :=
  ⟨by decide, by rfl⟩

/-- C3 (amended): for every parsed assistant event, each text fragment
that is non-blank — nonempty after trimming; whitespace-only
fragments are skipped — is delivered: the emitted `text_delta` events
carry exactly those fragments in order (not the full accumulated
text), the running total grows by exactly their concatenation, and
every `text_end` of a completed invocation carries the concatenation
of all delivered fragments in arrival order. -/
theorem C3_assistant_text_deltas (st : TState) (blocks : List CBlock)
    (lines : List CEvent) (aborted : Bool) (code : Option Int) (stderrRaw : Str) :
    deltasOf (handleLine st (CEvent.assistant blocks)).2 = nonBlankTexts blocks ∧
    (handleLine st (CEvent.assistant blocks)).1.accumulatedText =
      st.accumulatedText ++ (nonBlankTexts blocks).flatten ∧
    (∀ N s,
      SEvent.text_end N s ∈ trace (Invocation.exited lines aborted code stderrRaw) →
      s = catDeltas (trace (Invocation.exited lines aborted code stderrRaw))) := by
  refine ⟨(handleAssistant_deltas st blocks).1, (handleAssistant_deltas st blocks).2, ?_⟩
  intro N s hmem
  have hInv := lineInv_run lines
  have htr : trace (Invocation.exited lines aborted code stderrRaw) =
      SEvent.start :: (handleLines initState lines).2 ++
        (closeStep (handleLines initState lines).1 aborted code stderrRaw).2 := rfl
  have hcd : catDeltas (trace (Invocation.exited lines aborted code stderrRaw)) =
      (handleLines initState lines).1.accumulatedText := by
    rw [htr]
    unfold catDeltas
    rw [deltasOf_append, deltasOf_start_cons, closeStep_deltas, List.append_nil]
    exact hInv.acc.symm
  rw [hcd]
  rw [htr] at hmem
  rcases List.mem_append.mp hmem with h | h
  · rcases List.mem_cons.mp h with h | h
    · exact absurd h (by simp)
    · exfalso
      have h0 := List.countP_eq_zero.mp hInv.no_end _ h
      simp [isTextEnd] at h0
  obtain ⟨t, hterm, hts, hte, hshape⟩ :=
    closeStep_shape (handleLines initState lines).1 aborted code stderrRaw
  rw [hshape] at h
  rcases List.mem_append.mp h with h | h
  · by_cases hop : (handleLines initState lines).1.textBlockOpen
    · rw [if_pos hop] at h
      have h2 := List.mem_singleton.mp h
      injection h2 with h3 h4
    · rw [if_neg hop] at h
      exact absurd h (List.not_mem_nil _)
  · rcases List.mem_cons.mp h with h | h
    · exfalso
      rw [← h] at hte
      simp [isTextEnd] at hte
    · exact absurd (List.mem_singleton.mp h) (by simp)

/-- C3 witness: scenario with a single assistant fragment `Hi` and a
clean exit — the `text_end` carries `Hi`, the concatenation of the
delivered fragments. -/
theorem C3_assistant_text_deltas_witness :
    SEvent.text_end 0 (chars "Hi") ∈
      trace (Invocation.exited [CEvent.assistant [CBlock.text (chars "Hi")]]
        false (some 0) []) ∧
    chars "Hi" = catDeltas (trace (Invocation.exited
      [CEvent.assistant [CBlock.text (chars "Hi")]] false (some 0) [])) :=
  ⟨by decide,
   (C3_assistant_text_deltas initState [] [CEvent.assistant [CBlock.text (chars "Hi")]]
     false (some 0) []).2.2 0 (chars "Hi") (by decide)⟩

lemma trace_starts_le_one (inv : Invocation) :
    (trace inv).countP isTextStart ≤ 1 := by
  cases inv with
  | exited lines aborted code stderrRaw =>
    have hInv := lineInv_run lines
    have htr : trace (Invocation.exited lines aborted code stderrRaw) =
        SEvent.start :: (handleLines initState lines).2 ++
          (closeStep (handleLines initState lines).1 aborted code stderrRaw).2 := rfl
    rw [htr]
    simp only [List.countP_cons, List.countP_append, hInv.starts,
      closeStep_no_starts, isTextStart]
    by_cases hop : (handleLines initState lines).1.textBlockOpen <;> simp [hop]
  | spawnFailed msg code stderrRaw =>
    have htr : trace (Invocation.spawnFailed msg code stderrRaw) =
        SEvent.start :: (spawnErrorStep initState msg).2 ++
          (closeStep (spawnErrorStep initState msg).1 false code stderrRaw).2 := rfl
    rw [htr]
    simp [List.countP_cons, List.countP_append, closeStep_no_starts,
      spawnErrorStep, isTextStart]

/-- C4: during any single invocation at most one text block is open at
any point (in every trace prefix the number of `text_start` events
never exceeds the number of `text_end` events by more than one), and
every `text_start` for content index N is followed by exactly one
`text_end` for the same index N — the only `text_end` of the trace —
with no terminal event before that `text_end`. -/
theorem C4_text_block_bracketing (inv : Invocation) (N : Nat) :
    (∀ n, ((trace inv).take n).countP isTextStart ≤
        ((trace inv).take n).countP isTextEnd + 1) ∧
    (SEvent.text_start N ∈ trace inv →
      ∃ u v w s,
        trace inv = u ++ SEvent.text_start N :: v ++ SEvent.text_end N s :: w ∧
        (u ++ v).countP isTextEnd = 0 ∧ w.countP isTextEnd = 0 ∧
        (u ++ SEvent.text_start N :: v).countP isTerminal = 0) := by
  constructor
  · intro n
    calc ((trace inv).take n).countP isTextStart
        ≤ (trace inv).countP isTextStart :=
          ((trace inv).take_sublist n).countP_le isTextStart
      _ ≤ 1 := trace_starts_le_one inv
      _ ≤ ((trace inv).take n).countP isTextEnd + 1 := Nat.le_add_left 1 _
  · intro hmem
    cases inv with
    | spawnFailed msg code stderrRaw =>
      exfalso
      have h1 : (trace (Invocation.spawnFailed msg code stderrRaw)).countP
          isTextStart = 0 := by
        have htr : trace (Invocation.spawnFailed msg code stderrRaw) =
            SEvent.start :: (spawnErrorStep initState msg).2 ++
              (closeStep (spawnErrorStep initState msg).1 false code stderrRaw).2 := rfl
        rw [htr]
        simp [List.countP_cons, List.countP_append, closeStep_no_starts,
          spawnErrorStep, isTextStart]
      have h2 := List.countP_eq_zero.mp h1 _ hmem
      simp [isTextStart] at h2
    | exited lines aborted code stderrRaw =>
      have hInv := lineInv_run lines
      obtain ⟨t, hterm, hts, hte, hshape⟩ :=
        closeStep_shape (handleLines initState lines).1 aborted code stderrRaw
      have htr : trace (Invocation.exited lines aborted code stderrRaw) =
          SEvent.start :: (handleLines initState lines).2 ++
            (closeStep (handleLines initState lines).1 aborted code stderrRaw).2 := rfl
      have hmem2 : SEvent.text_start N ∈ (handleLines initState lines).2 := by
        rw [htr] at hmem
        rcases List.mem_cons.mp hmem with h | h
        · exact absurd h (by simp)
        rcases List.mem_append.mp h with h | h
        · exact h
        · exfalso
          have h0 := closeStep_no_starts (handleLines initState lines).1
            aborted code stderrRaw
          have h2 := List.countP_eq_zero.mp h0 _ h
          simp [isTextStart] at h2
      have hN := hInv.start_zero N hmem2
      subst hN
      have hopen : (handleLines initState lines).1.textBlockOpen = true := by
        by_contra hop
        have h0 : (handleLines initState lines).2.countP isTextStart = 0 := by
          rw [hInv.starts, if_neg hop]
        have h2 := List.countP_eq_zero.mp h0 _ hmem2
        simp [isTextStart] at h2
      have hidx : (handleLines initState lines).1.content.length - 1 = 0 := by
        rw [hInv.content_len, if_pos hopen]
      obtain ⟨u2, v2, hsplit⟩ := List.append_of_mem hmem2
      have hmemL : ∀ a : SEvent, a ∈ u2 ∨ a ∈ v2 →
          a ∈ (handleLines initState lines).2 := by
        intro a ha
        rw [hsplit]
        rcases ha with h2 | h2
        · exact List.mem_append.mpr (Or.inl h2)
        · exact List.mem_append.mpr (Or.inr (List.mem_cons_of_mem _ h2))
      refine ⟨SEvent.start :: u2, v2, [t, SEvent.streamEnd],
        (handleLines initState lines).1.accumulatedText, ?_, ?_, ?_, ?_⟩
      · rw [htr, hsplit, hshape, if_pos hopen, hidx]
        simp [List.append_assoc, List.cons_append]
      · apply List.countP_eq_zero.mpr
        intro a ha
        rcases List.mem_append.mp ha with h2 | h2
        · rcases List.mem_cons.mp h2 with h2 | h2
          · rw [h2]; decide
          · exact List.countP_eq_zero.mp hInv.no_end _ (hmemL a (Or.inl h2))
        · exact List.countP_eq_zero.mp hInv.no_end _ (hmemL a (Or.inr h2))
      · simp [List.countP_cons, hte,
          show isTextEnd SEvent.streamEnd = false from rfl]
      · apply List.countP_eq_zero.mpr
        intro a ha
        rcases List.mem_append.mp ha with h2 | h2
        · rcases List.mem_cons.mp h2 with h2 | h2
          · rw [h2]; decide
          · exact List.countP_eq_zero.mp hInv.no_term _ (hmemL a (Or.inl h2))
        · rcases List.mem_cons.mp h2 with h2 | h2
          · rw [h2]; decide
          · exact List.countP_eq_zero.mp hInv.no_term _ (hmemL a (Or.inr h2))

/-- C4 witness: in the scenario trace with one assistant fragment and
a clean exit, `text_start 0` occurs and is bracketed by a unique
`text_end 0` before the terminal event. -/
theorem C4_text_block_bracketing_witness :
    SEvent.text_start 0 ∈ trace (Invocation.exited
      [CEvent.assistant [CBlock.text (chars "Hi")]] false (some 0) []) ∧
    (∃ u v w s,
      trace (Invocation.exited [CEvent.assistant [CBlock.text (chars "Hi")]]
        false (some 0) []) =
        u ++ SEvent.text_start 0 :: v ++ SEvent.text_end 0 s :: w ∧
      (u ++ v).countP isTextEnd = 0 ∧ w.countP isTextEnd = 0 ∧
      (u ++ SEvent.text_start 0 :: v).countP isTerminal = 0) :=
  ⟨by decide,
   (C4_text_block_bracketing (Invocation.exited
     [CEvent.assistant [CBlock.text (chars "Hi")]] false (some 0) []) 0).2
     (by decide)⟩

end PiCursor
